import Mathlib

/-!
Shallow embedding of the audio-fingerprinting engine
(`src/microservices/audiofingerprinting`), covering the hash generator,
the target zone, the matcher, the storage layer's visible state, and the
legacy peak detector.  Real numbers of the C++ code (`double`) are
modelled as exact rationals; decimal literals such as `0.02` denote the
exact rational the source text writes.  C++ casts of non-negative
doubles to integer types truncate toward zero, which is `Int.toNat ∘
Rat.floor` on non-negative rationals.
-/

/- Constants from `src/core/Constants.cpp`. -/

def SAMPLE_RATE : Nat := 22050

def PEAK_BOX_SIZE : Nat := 20

/-- `POINT_EFFICIENCY = 0.3` in `Constants.cpp` ("Reduced from 0.8"). -/
def POINT_EFFICIENCY : ℚ := 3 / 10

def TARGET_T : ℚ := 1 / 2

def TARGET_F : ℚ := 500

def TARGET_START : ℚ := 1 / 50

def TARGET_ZONE_POINTS : Nat := 5

/-- `Peak` from `src/utils/Types.h`, together with the `amplitude` field the
processing code (`PeakDetection.cpp`, `HashGenerator.cpp`) reads and writes. -/
structure Peak where
  freqIdx : Nat
  timeIdx : Nat
  frequency : ℚ
  time : ℚ
  amplitude : ℚ
deriving DecidableEq, Repr

/-- `HashResult` from `src/utils/Types.h`; the stored `long` is always the
40-bit enhanced hash, so a `Nat` carries it faithfully. -/
structure HashResult where
  hash : Nat
  timeOffset : ℚ
  songId : String
deriving DecidableEq, Repr

/-- `MatchOffset` (db anchor time, query anchor time). -/
structure MatchOffset where
  dbOffset : ℚ
  sampleOffset : ℚ
deriving DecidableEq, Repr

/- ### Hash generation (`src/processing/HashGenerator.cpp`) -/

/-- `hashPointPairEnhanced` (HashGenerator.cpp:141-155).
`static_cast<uint64_t>` of the non-negative doubles is floor; `Int.toNat`
agrees with it on the non-negative inputs the pipeline produces. -/
def hashPointPairEnhanced (p1 p2 : Peak) : Nat :=
  let f1 := (Int.toNat ⌊p1.frequency * 10⌋) &&& 0x3FFF
  let f2 := (Int.toNat ⌊p2.frequency * 10⌋) &&& 0x3FFF
  let dt := (Int.toNat ⌊(p2.time - p1.time) * 10000⌋) &&& 0xFFF
  ((f1 <<< 26) ||| (f2 <<< 12) ||| dt) &&& 0xFFFFFFFFFF

/-- C1: for non-negative frequencies and a target not earlier than its anchor,
the emitted hash is exactly `((⌊a.freq·10⌋ & 0x3FFF) << 26) | ((⌊p.freq·10⌋ &
0x3FFF) << 12) | (⌊(p.time − a.time)·10⁴⌋ & 0xFFF)` masked to 40 bits, and
hence every emitted fingerprint's hash is below `2⁴⁰`. -/
theorem hashPointPairEnhanced_spec (a p : Peak)
    (hfa : 0 ≤ a.frequency) (hfp : 0 ≤ p.frequency) (ht : a.time ≤ p.time) :
    hashPointPairEnhanced a p =
      ((((Int.toNat ⌊a.frequency * 10⌋ &&& 0x3FFF) <<< 26) |||
        ((Int.toNat ⌊p.frequency * 10⌋ &&& 0x3FFF) <<< 12) |||
        (Int.toNat ⌊(p.time - a.time) * 10000⌋ &&& 0xFFF)) &&& 0xFFFFFFFFFF) ∧
      hashPointPairEnhanced a p < 2 ^ 40 := by
  refine ⟨rfl, ?_⟩
  have h : hashPointPairEnhanced a p ≤ 0xFFFFFFFFFF := Nat.and_le_right
  calc hashPointPairEnhanced a p ≤ 0xFFFFFFFFFF := h
    _ < 2 ^ 40 := by norm_num

/-- Witness for `hashPointPairEnhanced_spec` at a concrete anchor/target pair. -/
theorem hashPointPairEnhanced_spec_witness :
    (0 : ℚ) ≤ 1000 ∧ (0 : ℚ) ≤ 1100 ∧ (0 : ℚ) ≤ 1 / 10 ∧
      hashPointPairEnhanced ⟨0, 0, 1000, 0, 1⟩ ⟨1, 1, 1100, 1 / 10, 1⟩ < 2 ^ 40 :=
  ⟨by norm_num, by norm_num, by norm_num,
    (hashPointPairEnhanced_spec ⟨0, 0, 1000, 0, 1⟩ ⟨1, 1, 1100, 1 / 10, 1⟩
      (by norm_num) (by norm_num) (by norm_num)).2⟩

/- ### Target zone (`getTargetZoneOptimized`, HashGenerator.cpp:158-186) -/

/-- The rectangle test of `getTargetZoneOptimized`:
`xMin = anchor.time + TARGET_START`, `xMax = xMin + TARGET_T`,
`yMin = anchor.frequency − TARGET_F/2`, `yMax = yMin + TARGET_F`. -/
def inTargetZone (anchor p : Peak) : Bool :=
  let xMin := anchor.time + TARGET_START
  let xMax := xMin + TARGET_T
  let yMin := anchor.frequency - TARGET_F * (1 / 2)
  let yMax := yMin + TARGET_F
  decide (yMin ≤ p.frequency) && decide (p.frequency ≤ yMax) &&
    decide (xMin ≤ p.time) && decide (p.time ≤ xMax)

/-- Ordering used by the `std::sort` call in `getTargetZoneOptimized`
(comparator `a.amplitude > b.amplitude`, i.e. amplitude descending).  The
C++ sort is unstable; for the small ranges involved libstdc++ runs an
insertion sort, which keeps tied elements in input order, so the stable
`List.insertionSort` is the faithful deterministic model. -/
def ampGE (p q : Peak) : Prop := q.amplitude ≤ p.amplitude

instance : DecidableRel ampGE := fun p q => inferInstanceAs (Decidable (q.amplitude ≤ p.amplitude))

instance : IsTotal Peak ampGE := ⟨fun p q => le_total q.amplitude p.amplitude⟩

instance : IsTrans Peak ampGE := ⟨fun _ _ _ h1 h2 => le_trans h2 h1⟩

/-- `getTargetZoneOptimized`: collect the peaks inside the rectangle; when
more than `TARGET_ZONE_POINTS` qualify, sort by amplitude descending and
keep the first `TARGET_ZONE_POINTS`. -/
def getTargetZoneOptimized (anchor : Peak) (allPeaks : List Peak) : List Peak :=
  if TARGET_ZONE_POINTS < (allPeaks.filter (inTargetZone anchor)).length then
    (List.insertionSort ampGE (allPeaks.filter (inTargetZone anchor))).take TARGET_ZONE_POINTS
  else allPeaks.filter (inTargetZone anchor)

/-- In a list sorted under `r`, every element kept by `take k` is related to
every element of the corresponding `drop k`. -/
theorem sorted_take_rel_drop {α : Type} {r : α → α → Prop} {l : List α}
    (h : List.Sorted r l) {k : Nat} {p q : α}
    (hp : p ∈ l.take k) (hq : q ∈ l.drop k) : r p q := by
  have hsplit : l.take k ++ l.drop k = l := List.take_append_drop k l
  rw [List.Sorted, ← hsplit, List.pairwise_append] at h
  exact h.2.2 p hp q hq

/-- C5 (amended): `getTargetZoneOptimized` returns exactly the peaks of the
rectangle when at most five qualify; otherwise five of them, each with
amplitude at least that of every qualifying peak left out.  Ties in
amplitude are kept in input-list order (the code's sort imposes no
time/frequency tie-break). -/
theorem getTargetZoneOptimized_amended (a : Peak) (ps : List Peak) :
    (∀ p ∈ getTargetZoneOptimized a ps, p ∈ ps.filter (inTargetZone a)) ∧
    (getTargetZoneOptimized a ps).length
      = min (ps.filter (inTargetZone a)).length TARGET_ZONE_POINTS ∧
    ((ps.filter (inTargetZone a)).length ≤ TARGET_ZONE_POINTS →
      getTargetZoneOptimized a ps = ps.filter (inTargetZone a)) ∧
    (∀ p ∈ getTargetZoneOptimized a ps, ∀ q ∈ ps.filter (inTargetZone a),
      q ∉ getTargetZoneOptimized a ps → q.amplitude ≤ p.amplitude) := by
  unfold getTargetZoneOptimized
  by_cases hlen : TARGET_ZONE_POINTS < (ps.filter (inTargetZone a)).length
  · rw [if_pos hlen]
    set tp := ps.filter (inTargetZone a) with htp
    have hperm : List.Perm (List.insertionSort ampGE tp) tp := List.perm_insertionSort ampGE tp
    have hsorted : List.Sorted ampGE (List.insertionSort ampGE tp) :=
      List.sorted_insertionSort ampGE tp
    have hslen : (List.insertionSort ampGE tp).length = tp.length := hperm.length_eq
    refine ⟨?_, ?_, ?_, ?_⟩
    · intro p hp
      exact hperm.mem_iff.mp (List.mem_of_mem_take hp)
    · rw [List.length_take, hslen, Nat.min_comm]
    · intro hle; omega
    · intro p hp q hq hqnot
      have hqmem : q ∈ List.insertionSort ampGE tp := hperm.mem_iff.mpr hq
      have hqdrop : q ∈ (List.insertionSort ampGE tp).drop TARGET_ZONE_POINTS := by
        have hsplit := List.take_append_drop TARGET_ZONE_POINTS (List.insertionSort ampGE tp)
        rw [← hsplit] at hqmem
        rcases List.mem_append.mp hqmem with h | h
        · exact absurd h hqnot
        · exact h
      exact sorted_take_rel_drop hsorted hp hqdrop
  · rw [if_neg hlen]
    push_neg at hlen
    refine ⟨fun p hp => hp, ?_, fun _ => rfl, ?_⟩
    · omega
    · intro p hp q hq hqnot
      exact absurd hq hqnot

/- Concrete peaks for the C5 counterexample: six peaks of equal amplitude
inside the zone of `czAnchor`; the earliest-time peak is listed last. -/

def czAnchor : Peak := ⟨0, 0, 1000, 0, 5⟩

def czP1 : Peak := ⟨1, 1, 1000, 2 / 10, 10⟩

def czP2 : Peak := ⟨2, 2, 1000, 25 / 100, 10⟩

def czP3 : Peak := ⟨3, 3, 1000, 3 / 10, 10⟩

def czP4 : Peak := ⟨4, 4, 1000, 35 / 100, 10⟩

def czP5 : Peak := ⟨5, 5, 1000, 4 / 10, 10⟩

def czP6 : Peak := ⟨6, 6, 1000, 1 / 10, 10⟩

/-- C5 counterexample: `czP6` lies in the zone, has the same amplitude as the
kept `czP5` and an earlier time, yet it is dropped — so ties are not broken
by earlier time (nor lower frequency). -/
theorem getTargetZoneOptimized_tie_counterexample :
    getTargetZoneOptimized czAnchor [czP1, czP2, czP3, czP4, czP5, czP6]
        = [czP1, czP2, czP3, czP4, czP5] ∧
      inTargetZone czAnchor czP6 = true ∧
      czP6.amplitude = czP5.amplitude ∧
      czP6.time < czP5.time ∧
      czP6 ∉ getTargetZoneOptimized czAnchor [czP1, czP2, czP3, czP4, czP5, czP6] := by
  norm_num [getTargetZoneOptimized, inTargetZone, List.insertionSort, List.orderedInsert,
    ampGE, czAnchor, czP1, czP2, czP3, czP4, czP5, czP6,
    TARGET_T, TARGET_F, TARGET_START, TARGET_ZONE_POINTS, List.filter]

/- ### Hash generation loop (`hashPointsOptimized`, HashGenerator.cpp:189-218)

`generateSongId` (a hex rendering of `std::hash<std::string>`) is
implementation-defined library behaviour, so the functions below take the
resulting `songId` string as a parameter; quantifying over it covers every
filename. -/

/-- Inner loop over the target peaks of one anchor: emit a fingerprint for
each pair whose hash is not in `seen`, threading the seen-set. -/
def emitHashes (anchor : Peak) (songId : String) :
    List Peak → List Nat → List HashResult × List Nat
  | [], seen => ([], seen)
  | t :: ts, seen =>
    let h := hashPointPairEnhanced anchor t
    if h ∈ seen then emitHashes anchor songId ts seen
    else
      let r := emitHashes anchor songId ts (h :: seen)
      (⟨h, anchor.time, songId⟩ :: r.1, r.2)

/-- Outer loop over the anchors, threading the seen-set across anchors just
as the single `seenHashes` set does in the C++ code. -/
def hashPointsLoop (allPeaks : List Peak) (songId : String) :
    List Peak → List Nat → List HashResult
  | [], _ => []
  | a :: rest, seen =>
    let r := emitHashes a songId (getTargetZoneOptimized a allPeaks) seen
    r.1 ++ hashPointsLoop allPeaks songId rest r.2

/-- `hashPointsOptimized`: `maxAnchors = min(n, (size_t)(n * 0.8))`.  For a
`size_t` count `n`, the double product truncates to exactly `⌊4·n/5⌋` (the
error of binary `0.8` stays below the distance to the next integer), so the
anchor cap is `min n (4*n/5)`. -/
def hashPointsOptimized (peaks : List Peak) (songId : String) : List HashResult :=
  hashPointsLoop peaks songId
    (peaks.take (min peaks.length (4 * peaks.length / 5))) []

/-- The inner loop emits pairwise-distinct hashes, none already seen, and its
final seen-set is exactly the initial one plus the emitted hashes. -/
theorem emitHashes_hashes (anchor : Peak) (songId : String) :
    ∀ (ts : List Peak) (seen : List Nat),
      ((emitHashes anchor songId ts seen).1.map HashResult.hash).Nodup ∧
      (∀ h ∈ (emitHashes anchor songId ts seen).1.map HashResult.hash, h ∉ seen) ∧
      (∀ h : Nat, h ∈ (emitHashes anchor songId ts seen).2 ↔
        h ∈ seen ∨ h ∈ (emitHashes anchor songId ts seen).1.map HashResult.hash) := by
  intro ts
  induction ts with
  | nil => intro seen; simp [emitHashes]
  | cons t ts ih =>
    intro seen
    by_cases hmem : hashPointPairEnhanced anchor t ∈ seen
    · simpa [emitHashes, hmem] using ih seen
    · obtain ⟨ih1, ih2, ih3⟩ := ih (hashPointPairEnhanced anchor t :: seen)
      refine ⟨?_, ?_, ?_⟩
      · simp only [emitHashes, if_neg hmem, List.map_cons, List.nodup_cons]
        refine ⟨fun hc => ?_, ih1⟩
        exact (ih2 _ hc) (List.mem_cons_self _ _)
      · simp only [emitHashes, if_neg hmem, List.map_cons, List.mem_cons]
        rintro h (rfl | hh)
        · exact hmem
        · exact fun hs => (ih2 h hh) (List.mem_cons_of_mem _ hs)
      · intro h
        simp only [emitHashes, if_neg hmem, List.map_cons, List.mem_cons]
        rw [ih3 h]
        simp only [List.mem_cons]
        tauto

/-- The outer loop emits pairwise-distinct hashes, none of them in the
initial seen-set. -/
theorem hashPointsLoop_hashes (allPeaks : List Peak) (songId : String) :
    ∀ (anchors : List Peak) (seen : List Nat),
      ((hashPointsLoop allPeaks songId anchors seen).map HashResult.hash).Nodup ∧
      (∀ h ∈ (hashPointsLoop allPeaks songId anchors seen).map HashResult.hash,
        h ∉ seen) := by
  intro anchors
  induction anchors with
  | nil => intro seen; simp [hashPointsLoop]
  | cons a rest ih =>
    intro seen
    obtain ⟨e1, e2, e3⟩ :=
      emitHashes_hashes a songId (getTargetZoneOptimized a allPeaks) seen
    obtain ⟨l1, l2⟩ :=
      ih (emitHashes a songId (getTargetZoneOptimized a allPeaks) seen).2
    constructor
    · simp only [hashPointsLoop, List.map_append]
      refine List.Nodup.append e1 l1 ?_
      intro h hh1 hh2
      exact (l2 h hh2) ((e3 h).mpr (Or.inr hh1))
    · simp only [hashPointsLoop, List.map_append, List.mem_append]
      rintro h (hh | hh)
      · exact e2 h hh
      · exact fun hs => (l2 h hh) ((e3 h).mpr (Or.inl hs))

/-- C2: for every peak list and song id, `hashPointsOptimized` emits no two
fingerprints with the same hash value. -/
theorem hashPointsOptimized_nodup (peaks : List Peak) (songId : String) :
    ((hashPointsOptimized peaks songId).map HashResult.hash).Nodup :=
  (hashPointsLoop_hashes peaks songId
    (peaks.take (min peaks.length (4 * peaks.length / 5))) []).1

/-- Every fingerprint the inner loop emits carries its anchor's time. -/
theorem emitHashes_timeOffset (anchor : Peak) (songId : String) :
    ∀ (ts : List Peak) (seen : List Nat),
      ∀ hr ∈ (emitHashes anchor songId ts seen).1, hr.timeOffset = anchor.time := by
  intro ts
  induction ts with
  | nil => intro seen hr hmem; simp [emitHashes] at hmem
  | cons t ts ih =>
    intro seen hr hmem
    by_cases hseen : hashPointPairEnhanced anchor t ∈ seen
    · rw [emitHashes, if_pos hseen] at hmem
      exact ih seen hr hmem
    · rw [emitHashes, if_neg hseen] at hmem
      rcases List.mem_cons.mp hmem with rfl | hmem2
      · rfl
      · exact ih _ hr hmem2

/-- Every fingerprint the outer loop emits carries the time of one of the
anchors it was given. -/
theorem hashPointsLoop_timeOffset (allPeaks : List Peak) (songId : String) :
    ∀ (anchors : List Peak) (seen : List Nat),
      ∀ hr ∈ hashPointsLoop allPeaks songId anchors seen,
        ∃ p ∈ anchors, hr.timeOffset = p.time := by
  intro anchors
  induction anchors with
  | nil => intro seen hr hmem; simp [hashPointsLoop] at hmem
  | cons a rest ih =>
    intro seen hr hmem
    rw [hashPointsLoop] at hmem
    rcases List.mem_append.mp hmem with hmem1 | hmem2
    · exact ⟨a, List.mem_cons_self a rest,
        emitHashes_timeOffset a songId (getTargetZoneOptimized a allPeaks) seen hr hmem1⟩
    · obtain ⟨p, hp, heq⟩ := ih _ hr hmem2
      exact ⟨p, List.mem_cons_of_mem a hp, heq⟩

/-- C10: only the first `⌊0.8·n⌋` peaks of the input serve as anchors: every
emitted fingerprint's `anchor_time` is the time of a peak among the first
`4·n/5` (the spec does not state this anchor cap). -/
theorem hashPointsOptimized_anchor_cap (peaks : List Peak) (songId : String)
    (hr : HashResult) (hmem : hr ∈ hashPointsOptimized peaks songId) :
    ∃ p ∈ peaks.take (4 * peaks.length / 5), hr.timeOffset = p.time := by
  have hle : 4 * peaks.length / 5 ≤ peaks.length := by
    have h1 : 4 * peaks.length / 5 ≤ 4 * peaks.length / 4 :=
      Nat.div_le_div_left (by norm_num) (by norm_num)
    have h2 : 4 * peaks.length / 4 = peaks.length := by omega
    omega
  have hmin : min peaks.length (4 * peaks.length / 5) = 4 * peaks.length / 5 :=
    Nat.min_eq_right hle
  rw [hashPointsOptimized, hmin] at hmem
  exact hashPointsLoop_timeOffset peaks songId _ [] hr hmem

/- Concrete peaks for the C10 witness. -/

def hpP0 : Peak := ⟨0, 0, 1000, 0, 1⟩

def hpP1 : Peak := ⟨1, 1, 1000, 1 / 10, 1⟩

def hpHr : HashResult := ⟨hashPointPairEnhanced hpP0 hpP1, 0, "s"⟩

/-- Witness for `hashPointsOptimized_anchor_cap`: with two peaks the cap is
one anchor, and the single emitted fingerprint carries the first peak's
time. -/
theorem hashPointsOptimized_anchor_cap_witness :
    hpHr ∈ hashPointsOptimized [hpP0, hpP1] "s" ∧
      ∃ p ∈ ([hpP0, hpP1] : List Peak).take (4 * ([hpP0, hpP1] : List Peak).length / 5),
        hpHr.timeOffset = p.time := by
  have hmem : hpHr ∈ hashPointsOptimized [hpP0, hpP1] "s" := by
    norm_num [hashPointsOptimized, hashPointsLoop, emitHashes, getTargetZoneOptimized,
      inTargetZone, hpP0, hpP1, hpHr, TARGET_T, TARGET_F, TARGET_START,
      TARGET_ZONE_POINTS, List.filter]
  exact ⟨hmem, hashPointsOptimized_anchor_cap [hpP0, hpP1] "s" hpHr hmem⟩

/- ### Matcher scoring (`SongRecognizer::scoreMatch`, Recognition.cpp:101-133) -/

/-- `static_cast<int>` on a double: truncation toward zero. -/
def truncBin (q : ℚ) : ℤ := if 0 ≤ q then ⌊q⌋ else -⌊-q⌋

/-- The bin of each offset: `static_cast<int>((dbOffset − sampleOffset) / 0.5)`. -/
def matchBins (offsets : List MatchOffset) : List ℤ :=
  offsets.map fun o => truncBin ((o.dbOffset - o.sampleOffset) / (1 / 2))

/-- `scoreMatch`: the tallest bin of the histogram of the bins.  The C++ code
accumulates a `std::map<int,int>` histogram and takes the maximum entry;
folding the per-bin multiplicity over the bin list yields the same maximum
(sorting the deltas first does not change any multiplicity). -/
def scoreMatch (offsets : List MatchOffset) : Nat :=
  if offsets = [] then 0
  else (matchBins offsets).foldl (fun m b => max m ((matchBins offsets).count b)) 0

/-- Folding `max` of `g` over a list: the result bounds the seed and every
`g b`, and is either the seed or attained by some element. -/
theorem foldl_max_spec (g : ℤ → Nat) :
    ∀ (l : List ℤ) (a : Nat),
      a ≤ l.foldl (fun m b => max m (g b)) a ∧
      (∀ b ∈ l, g b ≤ l.foldl (fun m b => max m (g b)) a) ∧
      (l.foldl (fun m b => max m (g b)) a = a ∨
        ∃ b ∈ l, l.foldl (fun m b => max m (g b)) a = g b) := by
  intro l
  induction l with
  | nil => intro a; simp
  | cons b l ih =>
    intro a
    obtain ⟨ih1, ih2, ih3⟩ := ih (max a (g b))
    simp only [List.foldl_cons]
    refine ⟨le_trans (le_max_left a (g b)) ih1, ?_, ?_⟩
    · intro x hx
      rcases List.mem_cons.mp hx with rfl | hx2
      · exact le_trans (le_max_right a (g x)) ih1
      · exact ih2 x hx2
    · rcases ih3 with h | ⟨x, hx, hx2⟩
      · rcases max_choice a (g b) with hm | hm
        · exact Or.inl (h.trans hm)
        · exact Or.inr ⟨b, List.mem_cons_self b l, h.trans hm⟩
      · exact Or.inr ⟨x, List.mem_cons_of_mem b hx, hx2⟩

/-- C3 (amended): for non-empty offsets, `scoreMatch` is the maximum over
bins of the multiplicity of that bin, where a delta's bin is its quotient by
`0.5` truncated toward zero (`⌊δ/0.5⌋` only for `δ ≥ 0`). -/
theorem scoreMatch_amended (offsets : List MatchOffset) (hne : offsets ≠ []) :
    (∀ b : ℤ, (matchBins offsets).count b ≤ scoreMatch offsets) ∧
    (∃ b ∈ matchBins offsets, (matchBins offsets).count b = scoreMatch offsets) := by
  obtain ⟨h1, h2, h3⟩ := foldl_max_spec ((matchBins offsets).count) (matchBins offsets) 0
  have hsc : scoreMatch offsets
      = (matchBins offsets).foldl
          (fun m b => max m ((matchBins offsets).count b)) 0 := by
    rw [scoreMatch, if_neg hne]
  constructor
  · intro b
    by_cases hb : b ∈ matchBins offsets
    · rw [hsc]; exact h2 b hb
    · rw [List.count_eq_zero_of_not_mem hb]; exact Nat.zero_le _
  · have hbins : matchBins offsets ≠ [] := by
      intro h
      exact hne (List.map_eq_nil_iff.mp h)
    rcases h3 with h | ⟨b, hb, hb2⟩
    · obtain ⟨b0, hb0⟩ := List.exists_mem_of_ne_nil _ hbins
      have hc : 0 < (matchBins offsets).count b0 := List.count_pos_iff.mpr hb0
      have := h2 b0 hb0
      omega
    · exact ⟨b, hb, by rw [hsc, hb2]⟩

/-- Witness for `scoreMatch_amended` on a single offset. -/
theorem scoreMatch_amended_witness :
    ([(⟨0, 0⟩ : MatchOffset)] ≠ []) ∧
      ∃ b ∈ matchBins [(⟨0, 0⟩ : MatchOffset)],
        (matchBins [(⟨0, 0⟩ : MatchOffset)]).count b
          = scoreMatch [(⟨0, 0⟩ : MatchOffset)] :=
  ⟨by simp, (scoreMatch_amended [⟨0, 0⟩] (by simp)).2⟩

/-- Concrete offsets with one negative and one positive delta
(`δ₁ = −0.3`, `δ₂ = 0.2`). -/
def cx3 : List MatchOffset := [⟨0, 3 / 10⟩, ⟨1 / 5, 0⟩]

/-- The claimed scoring, modelled from the spec's words: bins are
`⌊δ / 0.5⌋` (true floor, also for negative deltas). -/
def floorBins (offsets : List MatchOffset) : List ℤ :=
  offsets.map fun o => ⌊(o.dbOffset - o.sampleOffset) / (1 / 2)⌋

/-- The claimed score, modelled from the spec's words. -/
def scoreMatchSpecFloor (offsets : List MatchOffset) : Nat :=
  if offsets = [] then 0
  else (floorBins offsets).foldl (fun m b => max m ((floorBins offsets).count b)) 0

/-- C3 counterexample: with deltas `−0.3` and `0.2` the code truncates both
quotients to bin `0` and scores `2`, while the claimed floor-histogram has
tallest bin `1`. -/
theorem scoreMatch_floor_counterexample :
    scoreMatch cx3 = 2 ∧ scoreMatchSpecFloor cx3 = 1 := by
  have h1 : cx3 ≠ [] := by intro h; simp [cx3] at h
  constructor
  · rw [scoreMatch, if_neg h1]
    norm_num [matchBins, truncBin, cx3, List.count_cons, List.count_nil, List.foldl]
  · rw [scoreMatchSpecFloor, if_neg h1]
    norm_num [floorBins, cx3, List.count_cons, List.count_nil, List.foldl]

/- ### Best-match selection (`SongRecognizer::bestMatch`, Recognition.cpp:146-167) -/

/-- The accumulator loop of `bestMatch`: skip a song whose match count cannot
beat the current best score, otherwise update on a strictly larger score. -/
def bestMatchAux : List (String × List MatchOffset) → String → Nat → String × Nat
  | [], bid, bs => (bid, bs)
  | m :: rest, bid, bs =>
    if m.2.length < bs then bestMatchAux rest bid bs
    else if bs < scoreMatch m.2 then bestMatchAux rest m.1 (scoreMatch m.2)
    else bestMatchAux rest bid bs

/-- `bestMatch` iterates the `std::map` in ascending `song_id` order, so its
input is a key-sorted association list. -/
def bestMatch (ms : List (String × List MatchOffset)) : String :=
  (bestMatchAux ms "" 0).1

/-- A song's score never exceeds its match count (each bin multiplicity is
bounded by the number of deltas), so the skip branch of `bestMatch` is sound. -/
theorem scoreMatch_le_length (offs : List MatchOffset) :
    scoreMatch offs ≤ offs.length := by
  by_cases h : offs = []
  · subst h; simp [scoreMatch]
  · rw [scoreMatch, if_neg h]
    obtain ⟨-, -, h3⟩ := foldl_max_spec ((matchBins offs).count) (matchBins offs) 0
    have hlen : (matchBins offs).length = offs.length := List.length_map _ _
    rcases h3 with heq | ⟨b, hb, heq⟩
    · omega
    · have hcl := List.count_le_length b (matchBins offs)
      omega

/-- Characterization of the `bestMatch` accumulator loop over a key-sorted
association list: either no song beats the seed score, or the loop returns
the first (hence lexicographically least) song attaining the maximal score. -/
theorem bestMatchAux_spec :
    ∀ (ms : List (String × List MatchOffset)) (bid : String) (bs : Nat),
      ms.Pairwise (fun x y => x.1 < y.1) →
      (bestMatchAux ms bid bs = (bid, bs) ∧ ∀ m ∈ ms, scoreMatch m.2 ≤ bs) ∨
      (∃ m ∈ ms, bestMatchAux ms bid bs = (m.1, scoreMatch m.2) ∧
        bs < scoreMatch m.2 ∧
        (∀ x ∈ ms, scoreMatch x.2 ≤ scoreMatch m.2) ∧
        (∀ x ∈ ms, scoreMatch x.2 = scoreMatch m.2 → m.1 ≤ x.1)) := by
  intro ms
  induction ms with
  | nil => intro bid bs _; left; exact ⟨rfl, by simp⟩
  | cons m rest ih =>
    intro bid bs hp
    obtain ⟨hrel, htail⟩ := List.pairwise_cons.mp hp
    rw [bestMatchAux]
    by_cases hskip : m.2.length < bs
    · rw [if_pos hskip]
      have hm_le : scoreMatch m.2 ≤ bs :=
        le_trans (scoreMatch_le_length m.2) (le_of_lt hskip)
      rcases ih bid bs htail with ⟨heq, hall⟩ | ⟨w, hw, heq, hlt, hmax, htie⟩
      · left
        refine ⟨heq, ?_⟩
        intro x hx
        rcases List.mem_cons.mp hx with rfl | hx2
        · exact hm_le
        · exact hall x hx2
      · right
        refine ⟨w, List.mem_cons_of_mem m hw, heq, hlt, ?_, ?_⟩
        · intro x hx
          rcases List.mem_cons.mp hx with rfl | hx2
          · omega
          · exact hmax x hx2
        · intro x hx
          rcases List.mem_cons.mp hx with rfl | hx2
          · omega
          · exact htie x hx2
    · rw [if_neg hskip]
      by_cases himp : bs < scoreMatch m.2
      · rw [if_pos himp]
        rcases ih m.1 (scoreMatch m.2) htail with ⟨heq, hall⟩ | ⟨w, hw, heq, hlt, hmax, htie⟩
        · right
          refine ⟨m, List.mem_cons_self m rest, heq, himp, ?_, ?_⟩
          · intro x hx
            rcases List.mem_cons.mp hx with rfl | hx2
            · exact le_refl _
            · exact hall x hx2
          · intro x hx
            rcases List.mem_cons.mp hx with rfl | hx2
            · exact fun _ => le_refl _
            · exact fun _ => le_of_lt (hrel x hx2)
        · right
          refine ⟨w, List.mem_cons_of_mem m hw, heq, lt_trans himp hlt, ?_, ?_⟩
          · intro x hx
            rcases List.mem_cons.mp hx with rfl | hx2
            · exact le_of_lt hlt
            · exact hmax x hx2
          · intro x hx
            rcases List.mem_cons.mp hx with rfl | hx2
            · omega
            · exact htie x hx2
      · rw [if_neg himp]
        push_neg at himp
        rcases ih bid bs htail with ⟨heq, hall⟩ | ⟨w, hw, heq, hlt, hmax, htie⟩
        · left
          refine ⟨heq, ?_⟩
          intro x hx
          rcases List.mem_cons.mp hx with rfl | hx2
          · exact himp
          · exact hall x hx2
        · right
          refine ⟨w, List.mem_cons_of_mem m hw, heq, hlt, ?_, ?_⟩
          · intro x hx
            rcases List.mem_cons.mp hx with rfl | hx2
            · omega
            · exact hmax x hx2
          · intro x hx
            rcases List.mem_cons.mp hx with rfl | hx2
            · omega
            · exact htie x hx2

/-- C4 (amended): over the key-sorted lookup result, `bestMatch` returns a
song of maximal score, and among the songs attaining that score the one with
the lexicographically least `song_id`; the total match count is never used
as a tie-break. -/
theorem bestMatch_amended (ms : List (String × List MatchOffset))
    (hsort : ms.Pairwise (fun x y => x.1 < y.1))
    (hpos : ∃ m ∈ ms, 0 < scoreMatch m.2) :
    ∃ m ∈ ms, bestMatch ms = m.1 ∧
      (∀ x ∈ ms, scoreMatch x.2 ≤ scoreMatch m.2) ∧
      (∀ x ∈ ms, scoreMatch x.2 = scoreMatch m.2 → m.1 ≤ x.1) := by
  rcases bestMatchAux_spec ms "" 0 hsort with ⟨heq, hall⟩ | ⟨m, hm, heq, hlt, hmax, htie⟩
  · obtain ⟨m, hm, hpos2⟩ := hpos
    have := hall m hm
    omega
  · exact ⟨m, hm, by rw [bestMatch, heq], hmax, htie⟩

/-- Singleton lookup result for the `bestMatch_amended` witness. -/
def cx4w : List (String × List MatchOffset) := [("a", [⟨0, 0⟩])]

/-- Witness for `bestMatch_amended` on a one-song lookup result. -/
theorem bestMatch_amended_witness :
    cx4w.Pairwise (fun x y => x.1 < y.1) ∧
      (∃ m ∈ cx4w, 0 < scoreMatch m.2) ∧
      ∃ m ∈ cx4w, bestMatch cx4w = m.1 ∧
        (∀ x ∈ cx4w, scoreMatch x.2 ≤ scoreMatch m.2) ∧
        (∀ x ∈ cx4w, scoreMatch x.2 = scoreMatch m.2 → m.1 ≤ x.1) := by
  have hs : scoreMatch [(⟨0, 0⟩ : MatchOffset)] = 1 := by
    rw [scoreMatch, if_neg (by simp)]
    norm_num [matchBins, truncBin, List.count_cons, List.count_nil, List.foldl]
  have h1 : cx4w.Pairwise (fun x y => x.1 < y.1) := by simp [cx4w]
  have h2 : ∃ m ∈ cx4w, 0 < scoreMatch m.2 := by
    refine ⟨("a", [⟨0, 0⟩]), by simp [cx4w], ?_⟩
    rw [hs]; norm_num
  exact ⟨h1, h2, bestMatch_amended cx4w h1 h2⟩

/-- Candidate with score 2 from 2 matches. -/
def cx4a : List MatchOffset := [⟨0, 0⟩, ⟨0, 0⟩]

/-- Candidate with score 2 from 5 matches. -/
def cx4b : List MatchOffset := [⟨0, 0⟩, ⟨0, 0⟩, ⟨1, 0⟩, ⟨2, 0⟩, ⟨3, 0⟩]

/-- C4 counterexample: songs `"a"` and `"b"` tie on score 2, `"b"` has the
larger match count (5 vs 2), yet `bestMatch` returns `"a"`: the match count
is not consulted at a tie. -/
theorem bestMatch_tiebreak_counterexample :
    scoreMatch cx4a = 2 ∧ scoreMatch cx4b = 2 ∧
      cx4a.length = 2 ∧ cx4b.length = 5 ∧
      bestMatch [("a", cx4a), ("b", cx4b)] = "a" := by
  have ha : scoreMatch cx4a = 2 := by
    rw [scoreMatch, if_neg (by simp [cx4a])]
    norm_num [matchBins, truncBin, cx4a, List.count_cons, List.count_nil, List.foldl]
  have hb : scoreMatch cx4b = 2 := by
    rw [scoreMatch, if_neg (by simp [cx4b])]
    norm_num [matchBins, truncBin, cx4b, List.count_cons, List.count_nil, List.foldl]
  have hla : cx4a.length = 2 := by simp [cx4a]
  have hlb : cx4b.length = 5 := by simp [cx4b]
  refine ⟨ha, hb, hla, hlb, ?_⟩
  norm_num [bestMatch, bestMatchAux, ha, hb, hla, hlb]

/-- Witness for `getTargetZoneOptimized_amended` at a concrete anchor and
one-peak list. -/
theorem getTargetZoneOptimized_amended_witness :
    (getTargetZoneOptimized czAnchor [czP1]).length
      = min ([czP1].filter (inTargetZone czAnchor)).length TARGET_ZONE_POINTS :=
  (getTargetZoneOptimized_amended czAnchor [czP1]).2.1

/- ### File extensions (`AudioLoader.cpp:153-157`, `Recognition.cpp:407-416`)

`std::filesystem::path::extension` semantics: the suffix of the filename
component from its last dot, empty when there is no dot, when the only dot
is the leading character, or for the special names `.` and `..`. -/

/-- Index of the last occurrence of `c`. -/
def lastIndexOfChar (c : Char) : List Char → Option Nat
  | [] => none
  | x :: xs =>
    match lastIndexOfChar c xs with
    | some i => some (i + 1)
    | none => if x = c then some 0 else none

/-- The filename component: everything after the last `/`. -/
def filenameOf (s : String) : String :=
  match lastIndexOfChar '/' s.toList with
  | some i => String.mk (s.toList.drop (i + 1))
  | none => s

/-- `std::filesystem::path(...).extension().string()`. -/
def extensionOf (s : String) : String :=
  let f := filenameOf s
  if f = "." ∨ f = ".." then ""
  else
    match lastIndexOfChar '.' f.toList with
    | none => ""
    | some 0 => ""
    | some i => String.mk (f.toList.drop i)

/-- `std::transform(..., ::tolower)` over the extension. -/
def toLowerStr (s : String) : String := String.mk (s.toList.map Char.toLower)

/-- `isSupportedFormat` (AudioLoader.cpp:153-157): `.wav`, `.mp3`, `.flac`
only — no `.m4a`. -/
def isSupportedFormat (filename : String) : Bool :=
  toLowerStr (extensionOf filename) == ".wav" ||
    toLowerStr (extensionOf filename) == ".mp3" ||
    toLowerStr (extensionOf filename) == ".flac"

/-- `SongRecognizer::isSupportedExtension` (Recognition.cpp:407-416): the
batch-ingest allowlist, which does include `.m4a`. -/
def isSupportedExtension (filename : String) : Bool :=
  toLowerStr (extensionOf filename) == ".mp3" ||
    toLowerStr (extensionOf filename) == ".wav" ||
    toLowerStr (extensionOf filename) == ".flac" ||
    toLowerStr (extensionOf filename) == ".m4a"

/- ### Storage state (`src/storage/Storage.cpp`) and ingest/recognition
(`src/recognition/Recognition.cpp`)

`generateSongIdFromPath` (a hex rendering of `std::hash<std::string>`) is
implementation-defined library behaviour; it is passed as a parameter
`sid`.  Metadata extraction (TagLib) is external and passed as `meta`.
The database always opens successfully in this model (sqlite I/O failures
are outside the claims). -/

/-- `SongInfo` (Recognition.h); a default-constructed value has all fields
empty. -/
structure SongInfo where
  songId : String
  title : String
  artist : String
  album : String
deriving DecidableEq, Repr

/-- `SongInfo()` — the "no match" result. -/
def emptySongInfo : SongInfo := ⟨"", "", "", ""⟩

/-- One row of the `hash` table (`hash INTEGER, offset REAL, song_id TEXT`). -/
structure HashRow where
  hash : Nat
  offset : ℚ
  songId : String
deriving DecidableEq, Repr

/-- The visible state of the SQLite database: the `song_info` table and the
`hash` table. -/
structure DbState where
  songInfoRows : List SongInfo
  hashRows : List HashRow
deriving DecidableEq, Repr

/-- `Database::songInDb`: `SELECT COUNT(*) FROM song_info WHERE song_id = ?`
with the id generated from the path, tested `> 0`. -/
def songInDb (sid : String → String) (st : DbState) (filename : String) : Bool :=
  decide (0 < (st.songInfoRows.filter (fun r => r.songId == sid filename)).length)

/-- Rows of `song_info` carrying a given `song_id`. -/
def songIdRowCount (st : DbState) (s : String) : Nat :=
  (st.songInfoRows.filter (fun r => r.songId == s)).length

/-- `Database::storeSong`: fails on an empty hash list; otherwise
`INSERT OR REPLACE` the metadata row (empty fields become `"Unknown"`) and
append all hash rows, atomically. -/
def storeSong (st : DbState) (hashes : List HashResult) (info : SongInfo) :
    Bool × DbState :=
  if hashes.isEmpty then (false, st)
  else
    (true,
      ⟨st.songInfoRows.filter (fun r => !(r.songId == info.songId)) ++
        [⟨info.songId,
          if info.title = "" then "Unknown" else info.title,
          if info.artist = "" then "Unknown" else info.artist,
          if info.album = "" then "Unknown" else info.album⟩],
        st.hashRows ++ hashes.map (fun h => ⟨h.hash, h.timeOffset, h.songId⟩)⟩)

/-- `fingerprintFileParallelOptimized` (HashGenerator.cpp:221-344), up to its
quality gates: unsupported container extensions and decoded audio shorter
than 10 seconds yield the empty fingerprint list; the processing of longer
audio (spectrogram, enhanced peak detection, `hashPointsOptimized`) is
abstracted as the parameter `pipe` applied to the decoded samples. -/
def fingerprintFileParallelOptimized (pipe : List ℚ → List HashResult)
    (filename : String) (samples : List ℚ) : List HashResult :=
  if isSupportedFormat filename then
    if samples.length < SAMPLE_RATE * 10 then [] else pipe samples
  else []

/-- `SongRecognizer::registerSong` (Recognition.cpp:209-250): return `true`
without storing when the song is already present; fail without storing when
fingerprinting yields nothing; otherwise store fingerprints and metadata. -/
def registerSong (pipe : List ℚ → List HashResult) (sid : String → String)
    (meta : SongInfo) (st : DbState) (filename : String) (samples : List ℚ) :
    Bool × DbState :=
  if songInDb sid st filename then (true, st)
  else if (fingerprintFileParallelOptimized pipe filename samples).isEmpty then (false, st)
  else
    storeSong st (fingerprintFileParallelOptimized pipe filename samples)
      { meta with songId := sid filename }

/-- `SongRecognizer::recognizeSong` (Recognition.cpp:316-334): an empty
fingerprint list reports no match (`SongInfo()`); otherwise the result of
the database lookup and scoring, abstracted as `recog`. -/
def recognizeSong (pipe : List ℚ → List HashResult)
    (recog : List HashResult → SongInfo) (filename : String)
    (samples : List ℚ) : SongInfo :=
  if (fingerprintFileParallelOptimized pipe filename samples).isEmpty then emptySongInfo
  else recog (fingerprintFileParallelOptimized pipe filename samples)

/-- C6: re-ingesting a file whose `song_id` is already in `song_info` is a
no-op: `registerSong` returns `true` with the state unchanged, `song_info`
still has exactly one row for that id, and the hash table is untouched. -/
theorem registerSong_reingest_noop (pipe : List ℚ → List HashResult)
    (sid : String → String) (meta : SongInfo) (st : DbState)
    (filename : String) (samples : List ℚ)
    (hin : songInDb sid st filename = true)
    (hone : songIdRowCount st (sid filename) = 1) :
    registerSong pipe sid meta st filename samples = (true, st) ∧
      songIdRowCount (registerSong pipe sid meta st filename samples).2
        (sid filename) = 1 ∧
      (registerSong pipe sid meta st filename samples).2.hashRows
        = st.hashRows := by
  have h : registerSong pipe sid meta st filename samples = (true, st) := by
    rw [registerSong, if_pos hin]
  refine ⟨h, ?_, ?_⟩ <;> rw [h]
  · exact hone

/-- Database with one registered song for the C6 witness. -/
def st6 : DbState := ⟨[⟨"f", "t", "a", "b"⟩], []⟩

/-- Witness for `registerSong_reingest_noop` at a concrete one-song state. -/
theorem registerSong_reingest_noop_witness :
    songInDb (fun s => s) st6 "f" = true ∧ songIdRowCount st6 "f" = 1 ∧
      registerSong (fun _ => []) (fun s => s) emptySongInfo st6 "f" [] = (true, st6) :=
  ⟨by decide, by decide,
    (registerSong_reingest_noop (fun _ => []) (fun s => s) emptySongInfo st6 "f" []
      (by decide) (by decide)).1⟩

/-- C7: decoded audio shorter than 10 seconds (`SAMPLE_RATE * 10` samples)
yields the empty fingerprint list, `registerSong` performs no index write,
and `recognizeSong` reports no match. -/
theorem shortInput_skipped (pipe : List ℚ → List HashResult)
    (recog : List HashResult → SongInfo) (sid : String → String)
    (meta : SongInfo) (st : DbState) (filename : String) (samples : List ℚ)
    (hshort : samples.length < SAMPLE_RATE * 10) :
    fingerprintFileParallelOptimized pipe filename samples = [] ∧
      (registerSong pipe sid meta st filename samples).2 = st ∧
      recognizeSong pipe recog filename samples = emptySongInfo := by
  have hfp : fingerprintFileParallelOptimized pipe filename samples = [] := by
    rw [fingerprintFileParallelOptimized]
    by_cases h1 : isSupportedFormat filename = true
    · rw [if_pos h1, if_pos hshort]
    · rw [if_neg h1]
  refine ⟨hfp, ?_, ?_⟩
  · rw [registerSong]
    split_ifs with h1 h2
    · rfl
    · rfl
    · rw [hfp] at h2; simp at h2
  · rw [recognizeSong]
    split_ifs with h1
    · rfl
    · rw [hfp] at h1; simp at h1

/-- Witness for `shortInput_skipped` on an empty sample buffer. -/
theorem shortInput_skipped_witness :
    ([] : List ℚ).length < SAMPLE_RATE * 10 ∧
      fingerprintFileParallelOptimized (fun _ => [⟨1, 0, "x"⟩]) "clip.wav" [] = [] ∧
      (registerSong (fun _ => [⟨1, 0, "x"⟩]) (fun s => s) emptySongInfo ⟨[], []⟩
        "clip.wav" []).2 = (⟨[], []⟩ : DbState) ∧
      recognizeSong (fun _ => [⟨1, 0, "x"⟩]) (fun _ => ⟨"id", "t", "a", "b"⟩)
        "clip.wav" [] = emptySongInfo := by
  have h := shortInput_skipped (fun _ => [⟨1, 0, "x"⟩]) (fun _ => ⟨"id", "t", "a", "b"⟩)
    (fun s => s) emptySongInfo ⟨[], []⟩ "clip.wav" [] (by decide)
  exact ⟨by decide, h.1, h.2.1, h.2.2⟩

/- ### C9: the `.m4a` allowlist gap -/

/-- A downstream pipeline that would produce a fingerprint, showing that the
empty result below comes from the format gate, not from the audio. -/
def m4aPipe : List ℚ → List HashResult := fun _ => [⟨1, 0, "x"⟩]

/-- Ten seconds of decoded audio, so the short-input gate does not fire. -/
def m4aSamples : List ℚ := List.replicate (SAMPLE_RATE * 10) 0

/-- The empty database. -/
def m4aDb : DbState := ⟨[], []⟩

/-- C9 (code bug): the batch-ingest scan (`isSupportedExtension`) accepts a
`.m4a`/`.M4A` file, but `fingerprintFileParallelOptimized` rejects it through
`isSupportedFormat` (which lists only `.wav .mp3 .flac`), so the file yields
no fingerprints and `registerSong` fails without ingesting — even with ample
audio and an index write ready to happen. -/
theorem m4a_supported_but_not_ingested :
    isSupportedExtension "library/song.M4A" = true ∧
      isSupportedFormat "library/song.M4A" = false ∧
      SAMPLE_RATE * 10 ≤ m4aSamples.length ∧
      fingerprintFileParallelOptimized m4aPipe "library/song.M4A" m4aSamples = [] ∧
      registerSong m4aPipe (fun s => s) emptySongInfo m4aDb "library/song.M4A"
        m4aSamples = (false, m4aDb) := by
  have hfmt : isSupportedFormat "library/song.M4A" = false := by decide
  have hfp : fingerprintFileParallelOptimized m4aPipe "library/song.M4A" m4aSamples
      = [] := by
    rw [fingerprintFileParallelOptimized, if_neg]
    simp [hfmt]
  refine ⟨by decide, hfmt, ?_, hfp, ?_⟩
  · simp [m4aSamples]
  · rw [registerSong, if_neg (by decide), if_pos (by rw [hfp]; rfl)]

/- ### Legacy peak detection (`findPeaksOptimized`, PeakDetection.cpp:31-71) -/

/-- `SpectrogramResult` from `src/utils/Types.h`. -/
structure SpectrogramResult where
  frequencies : List ℚ
  times : List ℚ
  powerMatrix : List (List ℚ)
deriving DecidableEq, Repr

/-- `Sxx[i][j]` (0 outside the matrix; the code indexes in bounds). -/
def matAt (m : List (List ℚ)) (i j : Nat) : ℚ := (m.getD i []).getD j 0

/-- `Sxx.size()`. -/
def specRows (s : SpectrogramResult) : Nat := s.powerMatrix.length

/-- `Sxx[0].size()`. -/
def specCols (s : SpectrogramResult) : Nat := (s.powerMatrix.getD 0 []).length

/-- The accumulated `globalSum`; the code's row-by-row loop accumulation is
the sum of all entries. -/
def globalSum (m : List (List ℚ)) : ℚ := (m.map (fun r => r.sum)).sum

/-- `globalMean = globalSum / (rows * cols)`. -/
def globalMean (s : SpectrogramResult) : ℚ :=
  globalSum s.powerMatrix / ((specRows s * specCols s : Nat) : ℚ)

/-- The legacy adaptive threshold: `globalMean * 2.0`, with no frequency-band
restriction of the mean. -/
def legacyThreshold (s : SpectrogramResult) : ℚ := globalMean s * 2

/-- `isLocalMaximum` (PeakDetection.cpp:9-29): no in-bounds neighbour of the
`PEAK_BOX_SIZE × PEAK_BOX_SIZE` box strictly exceeds the centre. -/
def isLocalMaximum (m : List (List ℚ)) (i j : Nat) : Bool :=
  (List.range (2 * (PEAK_BOX_SIZE / 2) + 1)).all fun a =>
    (List.range (2 * (PEAK_BOX_SIZE / 2) + 1)).all fun b =>
      let di : Int := (a : Int) - (PEAK_BOX_SIZE / 2 : Nat)
      let dj : Int := (b : Int) - (PEAK_BOX_SIZE / 2 : Nat)
      if di = 0 ∧ dj = 0 then true
      else
        let ni : Int := (i : Int) + di
        let nj : Int := (j : Int) + dj
        if 0 ≤ ni ∧ ni < (m.length : Int) ∧ 0 ≤ nj ∧ nj < ((m.getD 0 []).length : Int)
        then decide (matAt m ni.toNat nj.toNat ≤ matAt m i j)
        else true

/-- The candidate scan of `findPeaksOptimized`: every interior cell above the
legacy threshold that is a local maximum, with no band filter, no strength
gate and no temporal thinning; the legacy `Peak` constructor leaves
`amplitude` at its default `0`. -/
def scanPeaks (s : SpectrogramResult) : List Peak :=
  ((List.range (specRows s)).filter fun i =>
      decide (PEAK_BOX_SIZE / 2 ≤ i) &&
        decide (i < specRows s - PEAK_BOX_SIZE / 2)).flatMap fun i =>
    ((List.range (specCols s)).filter fun j =>
        decide (PEAK_BOX_SIZE / 2 ≤ j) &&
          decide (j < specCols s - PEAK_BOX_SIZE / 2)).filterMap fun j =>
      if legacyThreshold s < matAt s.powerMatrix i j ∧
          isLocalMaximum s.powerMatrix i j = true
      then some ⟨i, j, s.frequencies.getD i 0, s.times.getD j 0, 0⟩
      else none

/-- Sort key of the final `std::sort`: power at the peak's indices,
descending (stable model, as for the target zone). -/
def powerGE (m : List (List ℚ)) (p q : Peak) : Prop :=
  matAt m q.freqIdx q.timeIdx ≤ matAt m p.freqIdx p.timeIdx

instance (m : List (List ℚ)) : DecidableRel (powerGE m) := fun p q =>
  inferInstanceAs (Decidable (matAt m q.freqIdx q.timeIdx ≤ matAt m p.freqIdx p.timeIdx))

instance (m : List (List ℚ)) : IsTotal Peak (powerGE m) :=
  ⟨fun p q => le_total (matAt m q.freqIdx q.timeIdx) (matAt m p.freqIdx p.timeIdx)⟩

instance (m : List (List ℚ)) : IsTrans Peak (powerGE m) :=
  ⟨fun _ _ _ h1 h2 => le_trans h2 h1⟩

/-- `peakTarget = (size_t)((rows * cols / (B*B)) * POINT_EFFICIENCY)`:
integer division by `B² = 400`, then the double product with `0.3`
truncates to `⌊3·q/10⌋`. -/
def legacyPeakTarget (rows cols : Nat) : Nat :=
  rows * cols / (PEAK_BOX_SIZE * PEAK_BOX_SIZE) * 3 / 10

/-- `findPeaksOptimized`: sort the candidates by power descending and resize
to `peakTarget` when they exceed it. -/
def findPeaksOptimized (s : SpectrogramResult) : List Peak :=
  if legacyPeakTarget (specRows s) (specCols s)
      < (List.insertionSort (powerGE s.powerMatrix) (scanPeaks s)).length then
    (List.insertionSort (powerGE s.powerMatrix) (scanPeaks s)).take
      (legacyPeakTarget (specRows s) (specCols s))
  else List.insertionSort (powerGE s.powerMatrix) (scanPeaks s)

/-- Every scanned candidate is above the legacy threshold `2·μ` and is a
box local maximum. -/
theorem scanPeaks_mem {s : SpectrogramResult} {p : Peak} (hp : p ∈ scanPeaks s) :
    legacyThreshold s < matAt s.powerMatrix p.freqIdx p.timeIdx ∧
      isLocalMaximum s.powerMatrix p.freqIdx p.timeIdx = true := by
  unfold scanPeaks at hp
  rcases List.mem_flatMap.mp hp with ⟨i, hi, hpi⟩
  rcases List.mem_filterMap.mp hpi with ⟨j, hj, hfj⟩
  by_cases hc : legacyThreshold s < matAt s.powerMatrix i j ∧
      isLocalMaximum s.powerMatrix i j = true
  · rw [if_pos hc] at hfj
    have hpeq : p = ⟨i, j, s.frequencies.getD i 0, s.times.getD j 0, 0⟩ :=
      (Option.some.inj hfj).symm
    rw [hpeq]
    exact hc
  · rw [if_neg hc] at hfj
    simp at hfj

/-- C8 (amended): the legacy detector emits only interior local maxima above
`2·μ` (no band filter, strength gate or thinning), caps the output at
`⌊(R·C div B²)·0.3⌋` peaks, and every kept peak's power is at least that of
every dropped candidate. -/
theorem findPeaksOptimized_amended (s : SpectrogramResult) :
    (∀ p ∈ findPeaksOptimized s, p ∈ scanPeaks s ∧
      legacyThreshold s < matAt s.powerMatrix p.freqIdx p.timeIdx ∧
      isLocalMaximum s.powerMatrix p.freqIdx p.timeIdx = true) ∧
    (findPeaksOptimized s).length
      = min (scanPeaks s).length (legacyPeakTarget (specRows s) (specCols s)) ∧
    (∀ p ∈ findPeaksOptimized s, ∀ q ∈ scanPeaks s, q ∉ findPeaksOptimized s →
      matAt s.powerMatrix q.freqIdx q.timeIdx
        ≤ matAt s.powerMatrix p.freqIdx p.timeIdx) := by
  have hperm : List.Perm (List.insertionSort (powerGE s.powerMatrix) (scanPeaks s))
      (scanPeaks s) := List.perm_insertionSort _ _
  have hsorted : List.Sorted (powerGE s.powerMatrix)
      (List.insertionSort (powerGE s.powerMatrix) (scanPeaks s)) :=
    List.sorted_insertionSort _ _
  have hslen : (List.insertionSort (powerGE s.powerMatrix) (scanPeaks s)).length
      = (scanPeaks s).length := hperm.length_eq
  unfold findPeaksOptimized
  by_cases hcap : legacyPeakTarget (specRows s) (specCols s)
      < (List.insertionSort (powerGE s.powerMatrix) (scanPeaks s)).length
  · rw [if_pos hcap]
    refine ⟨?_, ?_, ?_⟩
    · intro p hp
      have hmem : p ∈ scanPeaks s := hperm.mem_iff.mp (List.mem_of_mem_take hp)
      exact ⟨hmem, scanPeaks_mem hmem⟩
    · rw [List.length_take, hslen, Nat.min_comm]
    · intro p hp q hq hqnot
      have hqmem : q ∈ List.insertionSort (powerGE s.powerMatrix) (scanPeaks s) :=
        hperm.mem_iff.mpr hq
      have hqdrop : q ∈ (List.insertionSort (powerGE s.powerMatrix)
          (scanPeaks s)).drop (legacyPeakTarget (specRows s) (specCols s)) := by
        have hsplit := List.take_append_drop
          (legacyPeakTarget (specRows s) (specCols s))
          (List.insertionSort (powerGE s.powerMatrix) (scanPeaks s))
        rw [← hsplit] at hqmem
        rcases List.mem_append.mp hqmem with h | h
        · exact absurd h hqnot
        · exact h
      exact sorted_take_rel_drop hsorted hp hqdrop
  · rw [if_neg hcap]
    refine ⟨?_, ?_, ?_⟩
    · intro p hp
      have hmem : p ∈ scanPeaks s := hperm.mem_iff.mp hp
      exact ⟨hmem, scanPeaks_mem hmem⟩
    · omega
    · intro p hp q hq hqnot
      exact absurd (hperm.mem_iff.mpr hq) hqnot

/- Concrete 21×39 spectrogram for the C8 counterexample: a single strong
cell at (10,10) in an otherwise silent matrix. -/

/-- A silent row of 39 bins. -/
def zRow : List ℚ := List.replicate 39 0

/-- The row holding the single strong cell (sum 8190 = 10 · 819). -/
def exRow : List ℚ := List.replicate 10 0 ++ [8190] ++ List.replicate 28 0

/-- The 21×39 power matrix. -/
def exMatrix : List (List ℚ) := List.replicate 10 zRow ++ [exRow] ++ List.replicate 10 zRow

/-- The spectrogram (axis labels are irrelevant to the legacy detector). -/
def exSpec : SpectrogramResult := ⟨List.replicate 21 0, List.replicate 39 0, exMatrix⟩

/-- The cap claimed by the spec for legacy mode, modelled from its words:
`⌊(R·C / B²) · 0.8⌋`. -/
def legacyCapClaimed (rows cols : Nat) : Nat :=
  rows * cols / (PEAK_BOX_SIZE * PEAK_BOX_SIZE) * 8 / 10

/-- C8 counterexample: on the 21×39 spectrogram exactly one candidate passes
the threshold and local-maximum gates; the claimed cap `⌊(R·C/B²)·0.8⌋ = 1`
would retain it, but the code's cap uses `POINT_EFFICIENCY = 0.3`, giving
`⌊2·0.3⌋ = 0`, so `findPeaksOptimized` returns no peaks at all. -/
theorem findPeaksOptimized_cap_counterexample :
    (scanPeaks exSpec).length = 1 ∧
      legacyCapClaimed (specRows exSpec) (specCols exSpec) = 1 ∧
      findPeaksOptimized exSpec = [] := by
  have hrows : specRows exSpec = 21 := by decide
  have hcols : specCols exSpec = 39 := by decide
  have hsum : globalSum exMatrix = 8190 := by
    simp [globalSum, exMatrix, exRow, zRow, List.sum_replicate]
  have hmean : globalMean exSpec = 10 := by
    rw [globalMean, hrows, hcols]
    rw [show exSpec.powerMatrix = exMatrix from rfl, hsum]
    norm_num
  have hthr : legacyThreshold exSpec = 20 := by
    rw [legacyThreshold, hmean]; norm_num
  have hscan : scanPeaks exSpec = [⟨10, 10, 0, 0, 0⟩] := by
    simp only [scanPeaks, hthr, hrows, hcols]
    decide
  have hfind : findPeaksOptimized exSpec = [] := by
    simp only [findPeaksOptimized, hscan, hrows, hcols]
    decide
  refine ⟨by rw [hscan]; rfl, by rw [hrows, hcols]; decide, hfind⟩

/-- Witness for `findPeaksOptimized_amended` at the concrete spectrogram. -/
theorem findPeaksOptimized_amended_witness :
    (findPeaksOptimized exSpec).length
      = min (scanPeaks exSpec).length
          (legacyPeakTarget (specRows exSpec) (specCols exSpec)) :=
  (findPeaksOptimized_amended exSpec).2.1
